import Mathlib

/-!
# Verification of the statistical UQ engine (Chapter 2 services)

Shallow embedding of `backend/services/statistical.py`.

Numeric modelling conventions:
* Python floats are idealised as exact arithmetic: the linear-algebra core
  (matrix assembly, complex 2x2 solves) is embedded over `ℚ`, and magnitudes,
  means and standard deviations (which involve square roots) live in `ℝ`.
* `np.random.randn()` draws are modelled as an explicit input stream
  `eps : List ℚ`; a Monte Carlo run with `num_samples = N` corresponds to a
  stream of length `N`.
* The code converts a frequency sweep to angular frequencies once
  (`omega = 2 * pi * np.linspace(freq_min, freq_max, num_freq_points)`) and
  every downstream computation iterates over the `omega` array.  The embedding
  therefore takes the angular frequency `w` (or the list of angular
  frequencies) as the sweep parameter; every per-frequency claim is stated
  uniformly in `w`, which covers every sweep.
* `np.linalg.solve` on a 2x2 system is exact Cramer solving; it raises
  `LinAlgError` exactly when the determinant vanishes, modelled by `Option`
  (`none` = `LinAlgError`).
* Wall-clock fields (`computation_time_s`) are real time and are not part of
  the embedding.
-/

/-! ## Complex rational arithmetic (numpy complex scalars, exact) -/

/-- Complex number as (real, imaginary) pair of rationals. -/
abbrev QC := ℚ × ℚ

def cadd (x y : QC) : QC := (x.1 + y.1, x.2 + y.2)

def csub (x y : QC) : QC := (x.1 - y.1, x.2 - y.2)

def cmul (x y : QC) : QC := (x.1 * y.1 - x.2 * y.2, x.1 * y.2 + x.2 * y.1)

def cneg (x : QC) : QC := (-x.1, -x.2)

/-- Complex inverse (of a nonzero complex rational). -/
def cinv (x : QC) : QC :=
  ((x.1 / (x.1 ^ 2 + x.2 ^ 2)), (-x.2 / (x.1 ^ 2 + x.2 ^ 2)))

def cdiv (x y : QC) : QC := cmul x (cinv y)

/-- Squared modulus, kept in `ℚ` so that the only irrational step is the
final square root. -/
def cnormSq (x : QC) : ℚ := x.1 ^ 2 + x.2 ^ 2

/-- `np.abs` of a complex scalar. -/
noncomputable def cabs (x : QC) : ℝ := Real.sqrt ((cnormSq x : ℚ) : ℝ)

/-- Determinant of the 2x2 complex matrix `[[z11, z12], [z21, z22]]`. -/
def c2det (z11 z12 z21 z22 : QC) : QC :=
  csub (cmul z11 z22) (cmul z12 z21)

/-- `np.linalg.solve` on a 2x2 complex system with right-hand side
`(f1, f2)`: the Cramer rule; `none` models `numpy.linalg.LinAlgError`
(singular matrix). -/
def csolve2 (z11 z12 z21 z22 f1 f2 : QC) : Option (QC × QC) :=
  let det := c2det z11 z12 z21 z22
  if det = ((0 : ℚ), (0 : ℚ)) then none
  else some
    (cdiv (csub (cmul f1 z22) (cmul z12 f2)) det,
     cdiv (csub (cmul z11 f2) (cmul f1 z21)) det)

/-! ## 2x2 real matrices (the rod-mesh system matrices) -/

/-- Dense 2x2 rational matrix `[[e11, e12], [e21, e22]]`. -/
structure Mat2 where
  e11 : ℚ
  e12 : ℚ
  e21 : ℚ
  e22 : ℚ
deriving DecidableEq, Repr

def Mat2.sub (A B : Mat2) : Mat2 :=
  ⟨A.e11 - B.e11, A.e12 - B.e12, A.e21 - B.e21, A.e22 - B.e22⟩

/-- Scalar times matrix (numpy `q * A`). -/
def Mat2.smul (q : ℚ) (A : Mat2) : Mat2 :=
  ⟨q * A.e11, q * A.e12, q * A.e21, q * A.e22⟩

/-- Matrix divided entrywise by a scalar (numpy `A / q`). -/
def Mat2.divs (A : Mat2) (q : ℚ) : Mat2 :=
  ⟨A.e11 / q, A.e12 / q, A.e21 / q, A.e22 / q⟩

/-- Mass matrix `M = [[2*m, m], [m, 2*m]]` with `m = 1.0` (normalized). -/
def Mmat : Mat2 := ⟨2 * 1, 1, 1, 2 * 1⟩

/-- Stiffness matrix `K = [[2*k, -k], [-k, 2*k]]`. -/
def Kmat (k : ℚ) : Mat2 := ⟨2 * k, -k, -k, 2 * k⟩

/-! ## Monte Carlo rod mesh (`monte_carlo_rod_mesh`) -/

/-- Damping matrix of one Monte Carlo draw:
`C = damping * (K / E0)` where `K = Kmat (E0 + sigma_E * eps)` is the matrix
built from the *sampled* modulus `E_sample = E0 + sigma_E * eps`
(source lines 37-44). -/
def mcC (E0 sigma_E damping eps : ℚ) : Mat2 :=
  Mat2.smul damping ((Kmat (E0 + sigma_E * eps)).divs E0)

/-- Determinant of the linear system solved at draw `eps` and angular
frequency `w`: the static system `K` when `w = 0`, otherwise the dynamic
system `Z = K - w^2 * M + i * w * C`. -/
def mcZdet (E0 sigma_E damping eps w : ℚ) : QC :=
  let k := E0 + sigma_E * eps
  let K := Kmat k
  let C := mcC E0 sigma_E damping eps
  if w = 0 then
    c2det (K.e11, 0) (K.e12, 0) (K.e21, 0) (K.e22, 0)
  else
    let Zre := K.sub (Mat2.smul (w ^ 2) Mmat)
    c2det (Zre.e11, w * C.e11) (Zre.e12, w * C.e12)
          (Zre.e21, w * C.e21) (Zre.e22, w * C.e22)

/-- Response magnitude `all_H_mag[s, f_idx]` for the draw with noise `eps`
at angular frequency `w`: `|H[0]|` from solving the (static or dynamic)
system, and `0` when the solve raises `LinAlgError` (source lines 46-61). -/
noncomputable def mcMagAt (E0 sigma_E damping eps w : ℚ) : ℝ :=
  let k := E0 + sigma_E * eps
  let K := Kmat k
  let C := mcC E0 sigma_E damping eps
  if w = 0 then
    match csolve2 (K.e11, 0) (K.e12, 0) (K.e21, 0) (K.e22, 0) (1, 0) (0, 0) with
    | none => 0
    | some H => cabs H.1
  else
    let Zre := K.sub (Mat2.smul (w ^ 2) Mmat)
    match csolve2 (Zre.e11, w * C.e11) (Zre.e12, w * C.e12)
                  (Zre.e21, w * C.e21) (Zre.e22, w * C.e22) (1, 0) (0, 0) with
    | none => 0
    | some H => cabs H.1

/-- Per-frequency sample mean `np.mean(all_H_mag, axis=0)` at angular
frequency `w`, over the draw stream `eps`. -/
noncomputable def mcMeanAt (E0 sigma_E damping : ℚ) (eps : List ℚ) (w : ℚ) : ℝ :=
  ((eps.map fun e => mcMagAt E0 sigma_E damping e w).sum) / (eps.length : ℝ)

/-- Per-frequency population standard deviation `np.std(all_H_mag, axis=0)`
at angular frequency `w` (numpy default `ddof = 0`). -/
noncomputable def mcStdAt (E0 sigma_E damping : ℚ) (eps : List ℚ) (w : ℚ) : ℝ :=
  Real.sqrt
    (((eps.map fun e =>
        (mcMagAt E0 sigma_E damping e w - mcMeanAt E0 sigma_E damping eps w) ^ 2).sum)
      / (eps.length : ℝ))

/-- Result payload of `monte_carlo_rod_mesh` (computation time omitted:
wall-clock). `omegas` is the angular-frequency image of the sweep. -/
structure MCResult where
  mean_transfer_function : List ℝ
  std_transfer_function : List ℝ
  upper_bound : List ℝ
  lower_bound : List ℝ
  num_samples : ℕ
  E0 : ℚ
  sigma_E : ℚ
  damping : ℚ

/-- The whole Monte Carlo sweep (source lines 63-78). -/
noncomputable def mcRun (E0 sigma_E damping : ℚ) (eps : List ℚ) (omegas : List ℚ) :
    MCResult :=
  { mean_transfer_function := omegas.map (mcMeanAt E0 sigma_E damping eps)
    std_transfer_function := omegas.map (mcStdAt E0 sigma_E damping eps)
    upper_bound := omegas.map fun w =>
      mcMeanAt E0 sigma_E damping eps w + 2 * mcStdAt E0 sigma_E damping eps w
    lower_bound := omegas.map fun w =>
      mcMeanAt E0 sigma_E damping eps w - 2 * mcStdAt E0 sigma_E damping eps w
    num_samples := eps.length
    E0 := E0
    sigma_E := sigma_E
    damping := damping }

/-- A single deterministic solve of the same model at the nominal modulus
`E0`: the Monte Carlo body with `E_sample = E0` (hence
`C = damping * (Kmat E0 / E0)`). -/
noncomputable def detRodMagAt (E0 damping w : ℚ) : ℝ :=
  let K := Kmat E0
  let C := Mat2.smul damping (K.divs E0)
  if w = 0 then
    match csolve2 (K.e11, 0) (K.e12, 0) (K.e21, 0) (K.e22, 0) (1, 0) (0, 0) with
    | none => 0
    | some H => cabs H.1
  else
    let Zre := K.sub (Mat2.smul (w ^ 2) Mmat)
    match csolve2 (Zre.e11, w * C.e11) (Zre.e12, w * C.e12)
                  (Zre.e21, w * C.e21) (Zre.e22, w * C.e22) (1, 0) (0, 0) with
    | none => 0
    | some H => cabs H.1

/-! ## Polynomial chaos rod mesh (`polynomial_chaos_rod_mesh`) -/

/-- Nominal dynamic operator of the chaos engine at angular frequency
`w ≠ 0`: `Z0 = K0 - w^2 * M + i * w * C` with `C = damping * np.eye(2)`
(source lines 95-97, 111). -/
def pceZ0 (E0 damping w : ℚ) :
    QC × QC × QC × QC :=
  let K0 := Kmat E0
  let Zre := K0.sub (Mat2.smul (w ^ 2) Mmat)
  ((Zre.e11, w * damping), (Zre.e12, 0), (Zre.e21, 0), (Zre.e22, w * damping))

/-- Baseline (zeroth-order) chaos solve `H0` at angular frequency `w ≠ 0`. -/
def pceH0 (E0 damping w : ℚ) : Option (QC × QC) :=
  let Z := pceZ0 E0 damping w
  csolve2 Z.1 Z.2.1 Z.2.2.1 Z.2.2.2 (1, 0) (0, 0)

/-- `K1 @ v` where `K1 = [[2*sigma_E, -sigma_E], [-sigma_E, 2*sigma_E]]`
is the stiffness sensitivity matrix (source line 96). -/
def pceK1apply (sigma_E : ℚ) (v : QC × QC) : QC × QC :=
  (cadd (cmul (2 * sigma_E, 0) v.1) (cmul (-sigma_E, 0) v.2),
   cadd (cmul (-sigma_E, 0) v.1) (cmul (2 * sigma_E, 0) v.2))

/-- First-order chaos correction `H1 = -solve(Z0, K1 @ H0)`
(source line 115); computed by the engine, not folded into the mean. -/
def pceH1 (E0 sigma_E damping w : ℚ) : Option (QC × QC) :=
  (pceH0 E0 damping w).bind fun H0 =>
    let Z := pceZ0 E0 damping w
    (csolve2 Z.1 Z.2.1 Z.2.2.1 Z.2.2.2 (pceK1apply sigma_E H0).1
      (pceK1apply sigma_E H0).2).map fun H => (cneg H.1, cneg H.2)

/-- Second-order chaos correction `H2 = -solve(Z0, K1 @ H1)`
(source line 117); computed by the engine, not folded into the mean. -/
def pceH2 (E0 sigma_E damping w : ℚ) : Option (QC × QC) :=
  (pceH1 E0 sigma_E damping w).bind fun H1 =>
    let Z := pceZ0 E0 damping w
    (csolve2 Z.1 Z.2.1 Z.2.2.1 Z.2.2.2 (pceK1apply sigma_E H1).1
      (pceK1apply sigma_E H1).2).map fun H => (cneg H.1, cneg H.2)

/-- `mean_H[f_idx]` of `polynomial_chaos_rod_mesh` at angular frequency `w`
(source lines 103-121): static nominal solve at `w = 0`, otherwise
`np.abs(H0[0])`, and `0` on `LinAlgError`.  The corrections `pceH1`/`pceH2`
are computed from the same `Z0` but the assigned mean uses only `H0`. -/
noncomputable def pceMeanAt (E0 sigma_E damping w : ℚ) : ℝ :=
  let K0 := Kmat E0
  if w = 0 then
    match csolve2 (K0.e11, 0) (K0.e12, 0) (K0.e21, 0) (K0.e22, 0) (1, 0) (0, 0) with
    | none => 0
    | some H => cabs H.1
  else
    match pceH0 E0 damping w with
    | none => 0
    | some H0 =>
        let h1 := pceH1 E0 sigma_E damping w
        let h2 := pceH2 E0 sigma_E damping w
        cabs H0.1

/-- Magnitude of the first component of the nominal (zeroth-order) solve:
the static nominal solve at `w = 0`, `|H0[0]|` otherwise, `0` when the
nominal system is singular. -/
noncomputable def pceNominalMag (E0 damping w : ℚ) : ℝ :=
  let K0 := Kmat E0
  if w = 0 then
    match csolve2 (K0.e11, 0) (K0.e12, 0) (K0.e21, 0) (K0.e22, 0) (1, 0) (0, 0) with
    | none => 0
    | some H => cabs H.1
  else
    match pceH0 E0 damping w with
    | none => 0
    | some H0 => cabs H0.1

/-- Result payload of `polynomial_chaos_rod_mesh` (computation time omitted:
wall-clock). -/
structure PCEResult where
  mean_transfer_function : List ℝ
  chaos_order : ℕ
  E0 : ℚ
  sigma_E : ℚ
  damping : ℚ

/-- The whole polynomial-chaos sweep (source lines 125-133); the truncation
order `order` is only echoed into `chaos_order`. -/
noncomputable def pceRun (E0 sigma_E damping : ℚ) (omegas : List ℚ)
    (order : ℕ) : PCEResult :=
  { mean_transfer_function := omegas.map (pceMeanAt E0 sigma_E damping)
    chaos_order := order
    E0 := E0
    sigma_E := sigma_E
    damping := damping }

/-! ## Taguchi method (`taguchi_method`) -/

/-- The standard L9 orthogonal array (up to 4 factors, 3 levels),
source lines 149-159. -/
def L9 : List (List ℕ) :=
  [[0, 0, 0, 0],
   [0, 1, 1, 1],
   [0, 2, 2, 2],
   [1, 0, 1, 2],
   [1, 1, 2, 0],
   [1, 2, 0, 1],
   [2, 0, 2, 1],
   [2, 1, 0, 2],
   [2, 2, 1, 0]]

/-- `oa = L9[:, :num_factors]` (numpy basic slicing clamps the bound at the
actual column count, exactly like `List.take`). -/
def taguchiOA (num_factors : ℕ) : List (List ℕ) :=
  L9.map (List.take num_factors)

/-- Number of occurrences, among the rows, of the ordered level pair
`(i, j)` in columns `c1` and `c2` (an out-of-range column reads the sentinel
level 9, which never matches a level in `{0, 1, 2}`). -/
def pairCount (rows : List (List ℕ)) (c1 c2 i j : ℕ) : ℕ :=
  rows.countP fun r => r.getD c1 9 == i && r.getD c2 9 == j

/-- Python list/array indexing: `Except.error "IndexError"` models the
`IndexError` raised on an out-of-bounds index. -/
def pyIndex {α : Type} (l : List α) (i : ℕ) : Except String α :=
  match l.get? i with
  | some x => Except.ok x
  | none => Except.error "IndexError"

/-- The `experiments` loop (source lines 164-170): for every row of the
truncated array, index the row with each factor position and the level list of each factor with the resulting level index. -/
def taguchiExperiments (factors : List (String × List ℚ)) :
    Except String (List (List (String × ℚ))) :=
  (taguchiOA factors.length).mapM fun row =>
    (List.range factors.length).mapM fun col_idx => do
      let factor_name ← pyIndex (factors.map Prod.fst) col_idx
      let level_idx ← pyIndex row col_idx
      let levels ← pyIndex (factors.map Prod.snd) col_idx
      let value ← pyIndex levels level_idx
      Except.ok (factor_name, value)

/-- The `sn_ratios` loop (source lines 173-183): per factor and per level,
the experiment row indices at which the factor sits at that level. -/
def taguchiSN (factors : List (String × List ℚ)) :
    Except String (List (String × List (ℚ × List ℕ))) :=
  (List.range factors.length).mapM fun f_idx => do
    let factor_name ← pyIndex (factors.map Prod.fst) f_idx
    let levels ← pyIndex (factors.map Prod.snd) f_idx
    let entries ← (List.range levels.length).mapM fun level_idx => do
      let pairs ← (taguchiOA factors.length).enum.mapM fun p => do
        let v ← pyIndex p.2 f_idx
        Except.ok (p.1, v)
      let matching := (pairs.filter fun p => p.2 == level_idx).map Prod.fst
      let level_val ← pyIndex levels level_idx
      Except.ok (level_val, matching)
    Except.ok (factor_name, entries)

/-- Result payload of `taguchi_method`. -/
structure TaguchiResult where
  orthogonal_array : List (List ℕ)
  experiments : List (List (String × ℚ))
  factor_names : List String
  num_experiments : ℕ
  sn_analysis : List (String × List (ℚ × List ℕ))
deriving DecidableEq, Repr

/-- `taguchi_method(factors)` (source lines 136-192): no validation of the
factor count is performed; the first out-of-bounds index raises. -/
def taguchi_method (factors : List (String × List ℚ)) :
    Except String TaguchiResult := do
  let experiments ← taguchiExperiments factors
  let sn ← taguchiSN factors
  Except.ok
    { orthogonal_array := taguchiOA factors.length
      experiments := experiments
      factor_names := factors.map Prod.fst
      num_experiments := experiments.length
      sn_analysis := sn }

/-- Five factors with three levels each: one more factor than the canonical
array supports. -/
def fiveFactors : List (String × List ℚ) :=
  [("f1", [1, 2, 3]), ("f2", [1, 2, 3]), ("f3", [1, 2, 3]),
   ("f4", [1, 2, 3]), ("f5", [1, 2, 3])]

/-! ## Linear oscillator (`linear_oscillator_uncertainty`) -/

/-- `np.sqrt((omega**2 - wf**2)**2 + (2*xi*omega*wf)**2)`, the closed-form
denominator shared by all three evaluation modes. -/
noncomputable def oscDenom (xi om wf : ℝ) : ℝ :=
  Real.sqrt ((om ^ 2 - wf ^ 2) ^ 2 + (2 * xi * om * wf) ^ 2)

/-- Deterministic response at excitation frequency `wf`
(source lines 262-264): `f_amplitude / max(denom, 1e-15)`, with no floor on
`xi0`/`omega0` themselves. -/
noncomputable def detResponse (xi0 omega0 f_amplitude wf : ℝ) : ℝ :=
  f_amplitude / max (oscDenom xi0 omega0 wf) (1 / 10 ^ 15)

/-- One Monte Carlo sample response (source lines 214-224): the sampled
`xi_s`/`omega_s` are floored at `0.001` and the divisor at `1e-15`. -/
noncomputable def mcOscResponse (xi_s omega_s f_amplitude wf : ℝ) : ℝ :=
  let xi := max xi_s (1 / 1000)
  let om := max omega_s (1 / 1000)
  f_amplitude / max (oscDenom xi om wf) (1 / 10 ^ 15)

/-- One weighted-grid (Taguchi) quadrature evaluation
(source lines 245-253): grid values floored at `0.001`, divisor at `1e-15`. -/
noncomputable def tagOscResponse (xi_p om_p f_amplitude wf : ℝ) : ℝ :=
  let xi_val := max xi_p (1 / 1000)
  let om_val := max om_p (1 / 1000)
  f_amplitude / max (oscDenom xi_val om_val wf) (1 / 10 ^ 15)

/-! ## PCA (`pca_analysis`) -/

/-- Column mean `np.mean(data, axis=0)`. -/
def colMean {n p : ℕ} (X : Matrix (Fin n) (Fin p) ℚ) (j : Fin p) : ℚ :=
  (∑ i, X i j) / (n : ℚ)

/-- Centered data `data - mean` (source lines 301-302). -/
def centered {n p : ℕ} (X : Matrix (Fin n) (Fin p) ℚ) :
    Matrix (Fin n) (Fin p) ℚ :=
  fun i j => X i j - colMean X j

/-- `np.cov(Y, rowvar=False)`: unbiased sample covariance of the columns of
`Y` (numpy subtracts the column means of its argument internally). -/
def npCov {n p : ℕ} (Y : Matrix (Fin n) (Fin p) ℚ) :
    Matrix (Fin p) (Fin p) ℚ :=
  fun a b => (∑ i, (Y i a - colMean Y a) * (Y i b - colMean Y b)) / ((n : ℚ) - 1)

/-- The covariance matrix the code eigen-decomposes (source line 305). -/
def covMatrix {n p : ℕ} (X : Matrix (Fin n) (Fin p) ℚ) :
    Matrix (Fin p) (Fin p) ℚ :=
  npCov (centered X)

/-- Contract of `np.linalg.eigh(A)` for a symmetric matrix: eigenvalues in
ascending order, orthonormal eigenvector columns, `A·V = V·diag(lam)`.
The eigen-decomposition itself is a LAPACK call; the pipeline after it is
embedded exactly, parametrized by any output satisfying this contract. -/
def isEighOutput {p : ℕ} (A : Matrix (Fin p) (Fin p) ℚ) (lam : Fin p → ℚ)
    (V : Matrix (Fin p) (Fin p) ℚ) : Prop :=
  (∀ i j : Fin p, i ≤ j → lam i ≤ lam j) ∧
  V.transpose * V = 1 ∧
  A * V = V * Matrix.diagonal lam

/-- `eigenvalues[np.argsort(eigenvalues)[::-1]]` (source lines 311-312):
sort ascending, then reverse. -/
def pcaSortedEigen (lam : List ℚ) : List ℚ :=
  (List.insertionSort (· ≤ ·) lam).reverse

/-- `explained_variance_ratio` (source lines 316-317): the sorted
eigenvalues divided by their sum when the total variance is positive, and
the sorted eigenvalues themselves otherwise. -/
def pcaEVR (lam : List ℚ) : List ℚ :=
  let sortedEig := pcaSortedEigen lam
  let total := sortedEig.sum
  if 0 < total then sortedEig.map fun x => x / total else sortedEig

/-- Constant data matrix `[[1, 1], [1, 1]]`: two observations with zero
variance. -/
def constData : Matrix (Fin 2) (Fin 2) ℚ := fun _ _ => 1

/-- Demo data matrix `[[0, 0], [1, 0]]` with positive total variance. -/
def pcaDemoX : Matrix (Fin 2) (Fin 2) ℚ := Matrix.of ![![0, 0], ![1, 0]]

/-- Orthonormal eigenvector matrix for the covariance of `pcaDemoX`. -/
def pcaDemoV : Matrix (Fin 2) (Fin 2) ℚ := Matrix.of ![![0, 1], ![1, 0]]

/-! ## Helper lemmas -/

lemma sum_map_const_real {α : Type} (l : List α) (c : ℝ) :
    (l.map fun _ => c).sum = (l.length : ℝ) * c := by
  induction l with
  | nil => simp
  | cons a t ih => simp [ih]; ring

lemma sum_map_div_rat (l : List ℚ) (c : ℚ) :
    (l.map fun x => x / c).sum = l.sum / c := by
  induction l with
  | nil => simp
  | cons a t ih => simp [ih, add_div]

lemma pcaSortedEigen_sum (l : List ℚ) : (pcaSortedEigen l).sum = l.sum := by
  unfold pcaSortedEigen
  rw [List.sum_reverse]
  exact (List.perm_insertionSort _ l).sum_eq

/-! ## Claims -/

/-- C1: For every input and every angular frequency in the sweep, the
`mean_transfer_function` value reported by `polynomial_chaos_rod_mesh`
equals the magnitude of the first component of the nominal (zeroth-order)
solve `H0` at that frequency; the corrections `pceH1`/`pceH2` are computed
but do not enter the reported result, and changing the truncation order
changes nothing in the output except the echoed `chaos_order` field. -/
theorem pce_mean_is_nominal_solve_and_order_only_echoed :
    (∀ E0 sigma_E damping w : ℚ,
       pceMeanAt E0 sigma_E damping w = pceNominalMag E0 damping w) ∧
    (∀ E0 sigma_E damping : ℚ, ∀ omegas : List ℚ, ∀ o o₂ : ℕ,
       pceRun E0 sigma_E damping omegas o =
         { pceRun E0 sigma_E damping omegas o₂ with chaos_order := o }) :=
  ⟨fun _ _ _ _ => rfl, fun _ _ _ _ _ _ => rfl⟩

/-- C4, counterexample: At `E0 = 1`, `sigma_E = 1`, `damping = 1` and
the draw `eps = 1` (so `E_sample = 2`), the damping matrix actually built
by `monte_carlo_rod_mesh` is neither the claimed
`damping * (Kmat E0 / E0) = [[2, -1], [-1, 2]]` nor equal to the damping
matrix of the draw `eps = 0`: `C` depends on the sampled stiffness. -/
theorem mc_damping_matrix_counterexample :
    mcC 1 1 1 1 ≠ Mat2.smul 1 ((Kmat 1).divs 1) ∧
    mcC 1 1 1 1 ≠ mcC 1 1 1 0 := by
  constructor
  · intro h
    have he := congrArg Mat2.e11 h
    norm_num [mcC, Mat2.smul, Mat2.divs, Kmat] at he
  · intro h
    have he := congrArg Mat2.e11 h
    norm_num [mcC, Mat2.smul, Mat2.divs, Kmat] at he

/-- C4, amended: The damping matrix of a Monte Carlo draw is
`damping * (E_sample / E0)` times the unit stiffness pattern
`[[2, -1], [-1, 2]]` — it scales with the *sampled* stiffness divided by
the nominal one, so it varies across draws; it collapses to the claimed
draw-independent `damping * (Kmat E0 / E0)` exactly when `sigma_E = 0`. -/
theorem mc_damping_matrix_sampled :
    ∀ E0 sigma_E damping e : ℚ,
      mcC E0 sigma_E damping e =
        Mat2.smul (damping * ((E0 + sigma_E * e) / E0)) (Kmat 1) ∧
      mcC E0 0 damping e = Mat2.smul damping ((Kmat E0).divs E0) := by
  intro E0 s d e
  constructor <;>
    simp only [mcC, Mat2.smul, Mat2.divs, Kmat, Mat2.mk.injEq] <;>
    refine ⟨by ring, by ring, by ring, by ring⟩

/-- C5: The canonical 9-row, 4-column, 3-level orthogonal array is
strictly orthogonal: for every pair of distinct columns, each of the 9
ordered level pairs appears in exactly one row; and the same holds for the
array truncated to any prefix of `k` columns (`2 ≤ k ≤ 4`). -/
theorem L9_strict_orthogonality :
    (∀ c₁ c₂ : Fin 4, c₁ ≠ c₂ → ∀ i j : Fin 3,
       pairCount L9 (c₁ : ℕ) (c₂ : ℕ) (i : ℕ) (j : ℕ) = 1) ∧
    (∀ k : Fin 5, 2 ≤ (k : ℕ) → ∀ c₁ c₂ : Fin 4,
       (c₁ : ℕ) < (k : ℕ) → (c₂ : ℕ) < (k : ℕ) → c₁ ≠ c₂ → ∀ i j : Fin 3,
       pairCount (taguchiOA (k : ℕ)) (c₁ : ℕ) (c₂ : ℕ) (i : ℕ) (j : ℕ) = 1) := by
  decide

/-- Witness for C5 at concrete columns and levels. -/
theorem L9_strict_orthogonality_witness :
    pairCount L9 0 1 0 0 = 1 ∧ pairCount (taguchiOA 2) 0 1 2 2 = 1 :=
  ⟨L9_strict_orthogonality.1 0 1 (by decide) 0 0,
   L9_strict_orthogonality.2 2 (by decide) 0 1 (by decide) (by decide)
     (by decide) 2 2⟩

/-- C6: With five factors (one more than the four columns of the canonical array), `taguchi_method` performs no validation: numpy slicing silently
clamps the array to 4 columns and the experiment loop then indexes `row[4]`,
raising an unhandled `IndexError` — not a validation error reported before
computation. -/
theorem taguchi_five_factors_unhandled_index_error :
    taguchi_method fiveFactors = Except.error "IndexError" := rfl

/-- C7: In `monte_carlo_rod_mesh`, a singular system at a
(draw, frequency) pair records a response magnitude of `0` for that pair,
and the sweep always returns a complete statistical summary (every output
list covers the whole frequency sweep); no error is surfaced. -/
theorem mc_singular_zero_and_summary_complete :
    (∀ E0 sigma_E damping e w : ℚ,
       mcZdet E0 sigma_E damping e w = ((0 : ℚ), (0 : ℚ)) →
       mcMagAt E0 sigma_E damping e w = 0) ∧
    (∀ E0 sigma_E damping : ℚ, ∀ eps omegas : List ℚ,
       (mcRun E0 sigma_E damping eps omegas).mean_transfer_function.length
         = omegas.length ∧
       (mcRun E0 sigma_E damping eps omegas).std_transfer_function.length
         = omegas.length ∧
       (mcRun E0 sigma_E damping eps omegas).upper_bound.length
         = omegas.length ∧
       (mcRun E0 sigma_E damping eps omegas).lower_bound.length
         = omegas.length) := by
  constructor
  · intro E0 s d e w h
    by_cases hw : w = 0
    · simp only [mcZdet, if_pos hw] at h
      simp only [mcMagAt, if_pos hw, csolve2, h]
      simp
    · simp only [mcZdet, if_neg hw] at h
      simp only [mcMagAt, if_neg hw, csolve2, h]
      simp
  · intro E0 s d eps omegas
    refine ⟨?_, ?_, ?_, ?_⟩ <;> simp [mcRun]

/-- Witness for C7: at `E0 = 1`, `sigma_E = 1`, the draw `eps = -1` makes
`E_sample = 0`, the static system at `w = 0` is singular, and the recorded
magnitude is `0`. -/
theorem mc_singular_zero_witness :
    mcZdet 1 1 1 (-1) 0 = ((0 : ℚ), (0 : ℚ)) ∧ mcMagAt 1 1 1 (-1) 0 = 0 :=
  ⟨by norm_num [mcZdet, c2det, cmul, csub, Kmat, Prod.ext_iff],
   mc_singular_zero_and_summary_complete.1 1 1 1 (-1) 0
     (by norm_num [mcZdet, c2det, cmul, csub, Kmat, Prod.ext_iff])⟩

lemma mcMagAt_sigma_zero (E0 damping e w : ℚ) :
    mcMagAt E0 0 damping e w = detRodMagAt E0 damping w := by
  simp only [mcMagAt, detRodMagAt, mcC, zero_mul, add_zero]

/-- C2: For every nominal stiffness `E0 > 0`, damping ratio, angular
frequency and draw stream of length `N ≥ 1`, `monte_carlo_rod_mesh` with
`sigma_E = 0` yields a standard deviation of `0` at every frequency and a
mean equal to the single deterministic solve of the same model at `E0`. -/
theorem mc_sigma_zero_regression :
    ∀ E0 damping : ℚ, 0 < E0 → ∀ eps : List ℚ, 1 ≤ eps.length → ∀ w : ℚ,
      mcMeanAt E0 0 damping eps w = detRodMagAt E0 damping w ∧
      mcStdAt E0 0 damping eps w = 0 := by
  intro E0 d hE eps hN w
  have hlen : ((eps.length : ℝ)) ≠ 0 := by
    have h0 : (0 : ℝ) < (eps.length : ℝ) := by exact_mod_cast hN
    linarith
  have hmean : mcMeanAt E0 0 d eps w = detRodMagAt E0 d w := by
    unfold mcMeanAt
    rw [List.map_congr_left fun e _ => mcMagAt_sigma_zero E0 d e w,
      sum_map_const_real]
    field_simp
  refine ⟨hmean, ?_⟩
  unfold mcStdAt
  rw [hmean]
  have hz : (eps.map fun e => (mcMagAt E0 0 d e w - detRodMagAt E0 d w) ^ 2)
      = eps.map fun _ => (0 : ℝ) := by
    refine List.map_congr_left fun e _ => ?_
    rw [mcMagAt_sigma_zero E0 d e w]
    ring
  rw [hz, sum_map_const_real]
  simp

/-- Witness for C2 at `E0 = 1`, `damping = 1`, one draw, `w = 0`. -/
theorem mc_sigma_zero_regression_witness :
    mcMeanAt 1 0 1 [0] 0 = detRodMagAt 1 1 0 ∧ mcStdAt 1 0 1 [0] 0 = 0 :=
  mc_sigma_zero_regression 1 1 (by norm_num) [0] (by norm_num) 0

lemma mcMagAt_agrees_pce_static_or_undamped (E0 damping e w : ℚ)
    (h : w = 0 ∨ damping = 0) :
    mcMagAt E0 0 damping e w = pceMeanAt E0 0 damping w := by
  rcases h with hw | hd
  · subst hw
    simp only [mcMagAt, pceMeanAt, if_pos rfl, zero_mul, add_zero,
      eq_self_iff_true, if_true]
  · subst hd
    by_cases hw : w = 0
    · subst hw
      simp only [mcMagAt, pceMeanAt, if_pos rfl, zero_mul, add_zero,
        eq_self_iff_true, if_true]
    · simp only [mcMagAt, pceMeanAt, pceH0, pceZ0, if_neg hw, mcC, Mat2.smul,
        Mat2.divs, Kmat, Mat2.sub, Mmat, zero_mul, add_zero, mul_zero]

/-- C3, counterexample: At `E0 = 1`, `damping = 1`, `sigma_E = 0`, with
one Monte Carlo draw and angular frequency `w = 1`, the Monte Carlo mean
exceeds the polynomial-chaos mean by more than `1/25` (the Monte Carlo
engine damps with `damping * K / E0 = [[2, -1], [-1, 2]]` while the chaos
engine damps with `damping * I`): the two means do not agree within any
small numeric tolerance. -/
theorem mc_pce_sigma_zero_disagree :
    pceMeanAt 1 0 1 1 + 1 / 25 < mcMeanAt 1 0 1 [0] 1 := by
  have hmc : mcMeanAt 1 0 1 [0] 1 = Real.sqrt ((4 / 65 : ℝ)) := by
    unfold mcMeanAt
    simp only [List.map_cons, List.map_nil, List.sum_cons, List.sum_nil,
      List.length_cons, List.length_nil]
    rw [show mcMagAt 1 0 1 0 1 = Real.sqrt ((4 / 65 : ℝ)) from ?_]
    · norm_num
    · simp only [mcMagAt]
      rw [if_neg (by norm_num : (1 : ℚ) ≠ 0)]
      norm_num [csolve2, c2det, cmul, csub, cadd, cdiv, cinv, mcC, Mat2.smul,
        Mat2.divs, Mat2.sub, Kmat, Mmat, Prod.ext_iff, cabs, cnormSq]
  have hpc : pceMeanAt 1 0 1 1 = Real.sqrt ((1 / 25 : ℝ)) := by
    simp only [pceMeanAt]
    rw [if_neg (by norm_num : (1 : ℚ) ≠ 0)]
    norm_num [pceH0, pceZ0, csolve2, c2det, cmul, csub, cadd, cdiv, cinv,
      Mat2.smul, Mat2.divs, Mat2.sub, Kmat, Mmat, Prod.ext_iff, cabs, cnormSq]
  rw [hmc, hpc]
  have h5 : Real.sqrt ((1 / 25 : ℝ)) = 1 / 5 := by
    rw [show (1 / 25 : ℝ) = (1 / 5) ^ 2 by norm_num,
      Real.sqrt_sq (by norm_num : (0 : ℝ) ≤ 1 / 5)]
  rw [h5]
  have h6 : (6 / 25 : ℝ) < Real.sqrt (4 / 65) :=
    (Real.lt_sqrt (by norm_num)).mpr (by norm_num)
  linarith

/-- C3, amended: With `sigma_E = 0` the Monte Carlo mean and the
polynomial-chaos mean agree exactly at `w = 0` (both reduce to the same
nominal static solve) and, for any `w`, whenever `damping = 0` (both
dynamic operators coincide).  At `w ≠ 0` with `damping ≠ 0` they generally
differ, because the engines assemble different damping matrices
(`damping * K / E0` versus `damping * I`). -/
theorem mc_pce_sigma_zero_agree_static_or_undamped :
    ∀ E0 damping : ℚ, ∀ eps : List ℚ, 1 ≤ eps.length → ∀ w : ℚ,
      w = 0 ∨ damping = 0 →
      mcMeanAt E0 0 damping eps w = pceMeanAt E0 0 damping w := by
  intro E0 d eps hN w h
  have hlen : ((eps.length : ℝ)) ≠ 0 := by
    have h0 : (0 : ℝ) < (eps.length : ℝ) := by exact_mod_cast hN
    linarith
  unfold mcMeanAt
  rw [List.map_congr_left fun e _ =>
    mcMagAt_agrees_pce_static_or_undamped E0 d e w h, sum_map_const_real]
  field_simp

/-- Witness for the amended C3 at `E0 = 1`, `damping = 1`, one draw,
`w = 0`. -/
theorem mc_pce_sigma_zero_agree_witness :
    mcMeanAt 1 0 1 [0] 0 = pceMeanAt 1 0 1 0 :=
  mc_pce_sigma_zero_agree_static_or_undamped 1 1 [0] (by norm_num) 0
    (Or.inl rfl)

/-- C8, counterexample: For the constant data matrix `[[1, 1], [1, 1]]`
(two observations, zero variance), the covariance matrix is zero, the zero
spectrum with identity eigenvectors is a valid `np.linalg.eigh` output, and
the explained-variance ratios returned by `pca_analysis` sum to `0`, not
`1` (the code falls back to the raw eigenvalues when the total variance is
not positive). -/
theorem pca_evr_zero_variance_counterexample :
    isEighOutput (covMatrix constData) (fun _ => 0)
        (1 : Matrix (Fin 2) (Fin 2) ℚ) ∧
    (pcaEVR (List.ofFn fun _ : Fin 2 => (0 : ℚ))).sum = 0 ∧
    ¬ |(pcaEVR (List.ofFn fun _ : Fin 2 => (0 : ℚ))).sum - 1| ≤ 1 / 10 ^ 9 := by
  have hcov : covMatrix constData = 0 := by
    ext i j
    simp [covMatrix, npCov, centered, colMean, constData, Fin.sum_univ_two]
  have hevr : pcaEVR (List.ofFn fun _ : Fin 2 => (0 : ℚ)) = [0, 0] := by
    simp [pcaEVR, pcaSortedEigen, List.ofFn_succ, List.insertionSort,
      List.orderedInsert]
  refine ⟨⟨fun i j _ => le_refl 0, ?_, ?_⟩, ?_, ?_⟩
  · simp
  · rw [hcov]
    simp [Matrix.diagonal_zero]
  · rw [hevr]
    simp
  · rw [hevr]
    norm_num

/-- C8, amended: For every input matrix with at least 2 observations
and every valid eigendecomposition of its covariance matrix, the sorted
eigenvalues reported by `pca_analysis` are in descending order; the
explained-variance ratios sum to `1` (exactly, hence within `1e-9`)
whenever the total variance is positive, and otherwise the code returns
the (sorted) eigenvalues themselves, whose sum is the total variance. -/
theorem pca_sorted_desc_and_evr_sum :
    ∀ (n p : ℕ) (X : Matrix (Fin n) (Fin p) ℚ), 2 ≤ n →
    ∀ (lam : Fin p → ℚ) (V : Matrix (Fin p) (Fin p) ℚ),
      isEighOutput (covMatrix X) lam V →
      (pcaSortedEigen (List.ofFn lam)).Sorted (· ≥ ·) ∧
      (0 < (List.ofFn lam).sum → (pcaEVR (List.ofFn lam)).sum = 1) ∧
      (¬ 0 < (List.ofFn lam).sum →
        (pcaEVR (List.ofFn lam)).sum = (List.ofFn lam).sum) := by
  intro n p X hn lam V heig
  refine ⟨?_, ?_, ?_⟩
  · unfold pcaSortedEigen
    rw [List.Sorted, List.pairwise_reverse]
    exact List.sorted_insertionSort (fun a b : ℚ => a ≤ b) (List.ofFn lam)
  · intro hpos
    simp only [pcaEVR]
    rw [if_pos (by rwa [pcaSortedEigen_sum]), sum_map_div_rat,
      pcaSortedEigen_sum]
    exact div_self (ne_of_gt hpos)
  · intro hneg
    simp only [pcaEVR]
    rw [if_neg (by rwa [pcaSortedEigen_sum]), pcaSortedEigen_sum]

/-- Witness for the amended C8: the demo data `[[0, 0], [1, 0]]` has
covariance `[[1/2, 0], [0, 0]]`, eigendecomposition with spectrum
`(0, 1/2)` and swap eigenvectors, positive total variance, and the
explained-variance ratios sum to `1`. -/
theorem pca_sorted_desc_and_evr_sum_witness :
    (pcaSortedEigen (List.ofFn (![0, 1/2] : Fin 2 → ℚ))).Sorted (· ≥ ·) ∧
    (pcaEVR (List.ofFn (![0, 1/2] : Fin 2 → ℚ))).sum = 1 := by
  have heig : isEighOutput (covMatrix pcaDemoX) (![0, 1/2] : Fin 2 → ℚ)
      pcaDemoV := by
    have hcov : covMatrix pcaDemoX = Matrix.of ![![1/2, 0], ![0, 0]] := by
      ext i j
      fin_cases i <;> fin_cases j <;>
        simp [covMatrix, npCov, centered, colMean, pcaDemoX,
          Fin.sum_univ_two] <;> norm_num
    have htrans : pcaDemoV.transpose = pcaDemoV := by
      ext i j
      fin_cases i <;> fin_cases j <;> simp [pcaDemoV, Matrix.transpose_apply]
    refine ⟨?_, ?_, ?_⟩
    · intro i j hij
      fin_cases i <;> fin_cases j <;> simp_all
    · rw [htrans]
      ext i j
      fin_cases i <;> fin_cases j <;>
        simp [pcaDemoV, Matrix.mul_apply, Fin.sum_univ_two, Matrix.one_apply]
    · rw [hcov]
      ext i j
      fin_cases i <;> fin_cases j <;>
        simp [pcaDemoV, Matrix.mul_apply, Fin.sum_univ_two,
          Matrix.diagonal]
  have h := pca_sorted_desc_and_evr_sum 2 2 pcaDemoX (by norm_num)
    (![0, 1/2] : Fin 2 → ℚ) pcaDemoV heig
  exact ⟨h.1, h.2.1 (by norm_num [List.ofFn_succ])⟩

/-- C9, counterexample: At `xi0 = 1e-16 > 0`, `omega0 = 1 > 0`,
`f_amplitude = 1`, the closed-form denominator at resonance is
`2e-16 < 1e-15`, so the floor `max(denom, 1e-15)` bites and the
deterministic response is `1e15`, not the claimed
`f_amplitude / (2 * xi0 * omega0^2) = 5e15`. -/
theorem det_response_floor_counterexample :
    (0 : ℝ) < 1 / 10 ^ 16 ∧ (0 : ℝ) < 1 ∧
    detResponse (1 / 10 ^ 16) 1 1 1 ≠ 1 / (2 * (1 / 10 ^ 16) * 1 ^ 2) := by
  refine ⟨by norm_num, by norm_num, ?_⟩
  have hden : oscDenom (1 / 10 ^ 16) 1 1 = 2 / 10 ^ 16 := by
    unfold oscDenom
    rw [show ((1 : ℝ) ^ 2 - 1 ^ 2) ^ 2 + (2 * (1 / 10 ^ 16) * 1 * 1) ^ 2
        = (2 / 10 ^ 16) ^ 2 by norm_num]
    exact Real.sqrt_sq (by norm_num)
  unfold detResponse
  rw [hden, max_eq_right (by norm_num : (2 : ℝ) / 10 ^ 16 ≤ 1 / 10 ^ 15)]
  norm_num

/-- C9, amended: For every `xi0 > 0`, `omega0 > 0` and `f_amplitude`
such that the resonance denominator `2 * xi0 * omega0^2` is at least the
`1e-15` floor, the deterministic response at excitation frequency
`omega0` equals `f_amplitude / (2 * xi0 * omega0^2)`; with the defaults
`xi0 = 0.05`, `omega0 = 1`, `f_amplitude = 1` this value is `10`. -/
theorem det_response_at_resonance :
    ∀ xi0 omega0 f_amplitude : ℝ, 0 < xi0 → 0 < omega0 →
      1 / 10 ^ 15 ≤ 2 * xi0 * omega0 ^ 2 →
      detResponse xi0 omega0 f_amplitude omega0
        = f_amplitude / (2 * xi0 * omega0 ^ 2) := by
  intro xi0 om f hxi hom hfloor
  unfold detResponse oscDenom
  rw [show (om ^ 2 - om ^ 2) ^ 2 + (2 * xi0 * om * om) ^ 2
      = (2 * xi0 * om ^ 2) ^ 2 by ring,
    Real.sqrt_sq (by positivity), max_eq_left hfloor]

/-- Witness for the amended C9 at the book defaults: the deterministic
resonance response is `10.0`. -/
theorem det_response_at_resonance_witness :
    detResponse (1 / 20) 1 1 1 = 10 := by
  rw [det_response_at_resonance (1 / 20) 1 1 (by norm_num) (by norm_num)
    (by norm_num)]
  norm_num

/-- C10: Every reported oscillator response — deterministic, Monte
Carlo sample, and quadrature evaluation — divides by
`max(denom, 1e-15)`, which is bounded below by the strictly positive floor
`1e-15`: no evaluation divides by zero, even at `xi0 = 0` and resonance
where the closed-form denominator vanishes. -/
theorem osc_divisors_floored :
    ∀ xi0 omega0 f_amplitude wf xi_s omega_s xi_p om_p : ℝ,
      (detResponse xi0 omega0 f_amplitude wf
         = f_amplitude / max (oscDenom xi0 omega0 wf) (1 / 10 ^ 15) ∧
       (1 / 10 ^ 15 : ℝ) ≤ max (oscDenom xi0 omega0 wf) (1 / 10 ^ 15) ∧
       (0 : ℝ) < max (oscDenom xi0 omega0 wf) (1 / 10 ^ 15)) ∧
      (mcOscResponse xi_s omega_s f_amplitude wf
         = f_amplitude /
             max (oscDenom (max xi_s (1 / 1000)) (max omega_s (1 / 1000)) wf)
               (1 / 10 ^ 15) ∧
       (1 / 10 ^ 15 : ℝ)
         ≤ max (oscDenom (max xi_s (1 / 1000)) (max omega_s (1 / 1000)) wf)
             (1 / 10 ^ 15) ∧
       (0 : ℝ)
         < max (oscDenom (max xi_s (1 / 1000)) (max omega_s (1 / 1000)) wf)
             (1 / 10 ^ 15)) ∧
      (tagOscResponse xi_p om_p f_amplitude wf
         = f_amplitude /
             max (oscDenom (max xi_p (1 / 1000)) (max om_p (1 / 1000)) wf)
               (1 / 10 ^ 15) ∧
       (1 / 10 ^ 15 : ℝ)
         ≤ max (oscDenom (max xi_p (1 / 1000)) (max om_p (1 / 1000)) wf)
             (1 / 10 ^ 15) ∧
       (0 : ℝ)
         < max (oscDenom (max xi_p (1 / 1000)) (max om_p (1 / 1000)) wf)
             (1 / 10 ^ 15)) := by
  intro xi0 om0 f wf xs os xp op
  refine ⟨⟨rfl, le_max_right _ _, ?_⟩, ⟨rfl, le_max_right _ _, ?_⟩,
    ⟨rfl, le_max_right _ _, ?_⟩⟩ <;>
    exact lt_of_lt_of_le (by norm_num) (le_max_right _ _)
